import Mathlib

/-!
Verification of the roster state machine of `bot.py` (a Telegram signup bot).

Entries of the signup list are stored as flat strings:
  "Name"            host present, no guests
  "Name +N"         host present, N guests
  "Name +N<ZWS>"    host absent (guest-only), N guests, ZWS = U+200B marker

We embed the string-level helpers (`_guest_count`, `_is_guest_only`,
`_strip_guest`, `_make_entry`, `_find_user_index`, `_total_count`,
`_expanded_users`) and the message handlers (`plus_message`,
`_plus_n_common`, `minus_message`, `_minus_n_common`, `open_cmd`) as pure
functions over `List Char` entries and an explicit `ChatState`.

Modelling conventions: Python's regex `\s` and `str.strip()` are modelled
over the ASCII whitespace set; `str.lower()` is modelled by `Char.toLower`
(ASCII); the `$` anchor of the guest-suffix regex is modelled as strict
end-of-string.  None of the claims hinge on non-ASCII whitespace, Unicode
case folding, or trailing-newline entries.
-/

namespace Footbot

/-- An entry of the roster, as the character list of its stored string. -/
abbrev Entry := List Char

/-- The zero-width-space marker U+200B used to flag guest-only entries. -/
def zws : Char := Char.ofNat 0x200B

/-- ASCII model of Python's `\s` / `str.strip()` whitespace class. -/
def isPySpace (c : Char) : Bool :=
  c = ' ' || c = '\t' || c = '\n' || c = '\r' || c = Char.ofNat 11 || c = Char.ofNat 12

/-- Python `str.strip()`: drop whitespace from both ends. -/
def pyStrip (e : Entry) : Entry :=
  ((e.dropWhile isPySpace).reverse.dropWhile isPySpace).reverse

/-- Python `str.lower()` (ASCII model). -/
def lowerList (e : Entry) : Entry := e.map Char.toLower

/-- Numeric value of a run of decimal digit characters (as `int(...)` does). -/
def digitsVal (ds : List Char) : Nat :=
  ds.foldl (fun a c => a * 10 + (c.toNat - 48)) 0

/-- Fuel-driven decimal rendering; `fuel > n` always suffices. -/
def natCharsAux : Nat → Nat → List Char
  | 0, _ => []
  | fuel + 1, n =>
    if n < 10 then [Char.ofNat (48 + n)]
    else natCharsAux fuel (n / 10) ++ [Char.ofNat (48 + n % 10)]

/-- Decimal rendering of a natural number, as Python's `f"{n}"`. -/
def natChars (n : Nat) : List Char := natCharsAux (n + 1) n

/--
After the optional ZWS marker has been peeled off (flag `z`), match the
rest of the reversed entry against digits, `'+'`, and a whitespace char.
-/
def guestSuffixCore (r1 : List Char) (z : Bool) : Option (Nat × Bool × Entry) :=
  let ds := r1.takeWhile Char.isDigit
  let rest2 := r1.dropWhile Char.isDigit
  if ds.isEmpty then none
  else
    match rest2 with
    | '+' :: c :: tail =>
      if isPySpace c then some (digitsVal ds.reverse, z, tail.reverse) else none
    | _ => none

/--
Match of the guest-suffix regex `\s\+(\d+)(​)?$` against the end of an
entry.  Returns `(N, zwsPresent, prefixBeforeMatch)` when the entry ends in
whitespace, `'+'`, a nonempty digit run, and an optional ZWS marker.
-/
def guestSuffix (e : Entry) : Option (Nat × Bool × Entry) :=
  match e.reverse with
  | c :: rest => if c = zws then guestSuffixCore rest true else guestSuffixCore (c :: rest) false
  | [] => guestSuffixCore [] false

/-- `_guest_count` of bot.py: the `N` of a trailing `+N` suffix, else 0. -/
def _guest_count (e : Entry) : Nat :=
  match guestSuffix e with
  | some x => x.1
  | none => 0

/-- `_is_guest_only` of bot.py: does the suffix carry the ZWS marker? -/
def _is_guest_only (e : Entry) : Bool :=
  match guestSuffix e with
  | some x => x.2.1
  | none => false

/-- `_strip_guest` of bot.py: remove the guest suffix, then `strip()`. -/
def _strip_guest (e : Entry) : Entry :=
  pyStrip (match guestSuffix e with
           | some x => x.2.2
           | none => e)

/-- `_make_entry` of bot.py: encode `(display, n, guest_only)` as a string. -/
def _make_entry (display : Entry) (n : Nat) (guest_only : Bool) : Entry :=
  let d := pyStrip display
  if n = 0 then d
  else d ++ " +".data ++ natChars n ++ (if guest_only then [zws] else [])

/-! ### Basic facts about the decimal rendering and the suffix parser -/

theorem digit_char_spec (m : Nat) (hm : m < 10) :
    (Char.ofNat (48 + m)).isDigit = true ∧ (Char.ofNat (48 + m)).toNat = 48 + m ∧
      Char.ofNat (48 + m) ≠ zws := by
  interval_cases m <;> exact ⟨by decide, by decide, by decide⟩

theorem isDigit_ne_zws {c : Char} (h : c.isDigit = true) : c ≠ zws := by
  intro he
  subst he
  exact absurd h (by decide)

theorem digitsVal_append_singleton (xs : List Char) (c : Char) :
    digitsVal (xs ++ [c]) = 10 * digitsVal xs + (c.toNat - 48) := by
  simp only [digitsVal, List.foldl_append, List.foldl_cons, List.foldl_nil]
  omega

theorem natCharsAux_props :
    ∀ fuel n, n < fuel →
      natCharsAux fuel n ≠ [] ∧ (∀ c ∈ natCharsAux fuel n, c.isDigit = true) ∧
        digitsVal (natCharsAux fuel n) = n := by
  intro fuel
  induction fuel with
  | zero => intro n hn; omega
  | succ f ih =>
    intro n hn
    by_cases h10 : n < 10
    · obtain ⟨hd, ht, _⟩ := digit_char_spec n h10
      refine ⟨by simp [natCharsAux, h10], ?_, ?_⟩
      · intro c hc
        simp only [natCharsAux, if_pos h10, List.mem_singleton] at hc
        subst hc; exact hd
      · simp only [natCharsAux, if_pos h10, digitsVal, List.foldl_cons, List.foldl_nil]
        omega
    · have hdiv : n / 10 < f := by
        have h1 : n / 10 < n := Nat.div_lt_self (by omega) (by omega)
        omega
      obtain ⟨ihne, ihdig, ihval⟩ := ih (n / 10) hdiv
      obtain ⟨hd, ht, _⟩ := digit_char_spec (n % 10) (Nat.mod_lt _ (by omega))
      refine ⟨by simp [natCharsAux, h10], ?_, ?_⟩
      · intro c hc
        simp only [natCharsAux, if_neg h10, List.mem_append, List.mem_singleton] at hc
        rcases hc with hc | hc
        · exact ihdig c hc
        · subst hc; exact hd
      · simp only [natCharsAux, if_neg h10]
        rw [digitsVal_append_singleton, ihval, ht]
        omega

theorem natChars_ne_nil (n : Nat) : natChars n ≠ [] :=
  (natCharsAux_props (n + 1) n (by omega)).1

theorem natChars_all_digit (n : Nat) : ∀ c ∈ natChars n, c.isDigit = true :=
  (natCharsAux_props (n + 1) n (by omega)).2.1

theorem digitsVal_natChars (n : Nat) : digitsVal (natChars n) = n :=
  (natCharsAux_props (n + 1) n (by omega)).2.2

theorem takeWhile_append_stop {p : Char → Bool} {xs : List Char} (h : ∀ a ∈ xs, p a = true)
    {y : Char} (hy : p y = false) (ys : List Char) :
    (xs ++ y :: ys).takeWhile p = xs := by
  induction xs with
  | nil => simp [List.takeWhile, hy]
  | cons a as ihx =>
    have ha : p a = true := h a (by simp)
    simp only [List.cons_append, List.takeWhile_cons, ha, if_true]
    rw [ihx (fun b hb => h b (by simp [hb]))]

theorem dropWhile_append_stop {p : Char → Bool} {xs : List Char} (h : ∀ a ∈ xs, p a = true)
    {y : Char} (hy : p y = false) (ys : List Char) :
    (xs ++ y :: ys).dropWhile p = y :: ys := by
  induction xs with
  | nil => simp [List.dropWhile, hy]
  | cons a as ihx =>
    have ha : p a = true := h a (by simp)
    simp only [List.cons_append, List.dropWhile_cons, ha, if_true]
    exact ihx (fun b hb => h b (by simp [hb]))

/-! ### Decoding an encoded entry -/

theorem make_entry_zero (d : Entry) (g : Bool) : _make_entry d 0 g = pyStrip d := by
  simp [_make_entry]

theorem guestSuffixCore_digits {n : Nat} (xs : List Char) (z : Bool) :
    guestSuffixCore ((natChars n).reverse ++ '+' :: ' ' :: xs) z = some (n, z, xs.reverse) := by
  have hdig : ∀ c ∈ (natChars n).reverse, Char.isDigit c = true := by
    intro c hc; exact natChars_all_digit n c (List.mem_reverse.mp hc)
  have hplus : Char.isDigit '+' = false := by decide
  have hemp : ((natChars n).reverse).isEmpty = false := by
    cases hnr : (natChars n).reverse with
    | nil => exact absurd (by simpa using hnr) (natChars_ne_nil n)
    | cons a l => rfl
  unfold guestSuffixCore
  rw [takeWhile_append_stop hdig hplus, dropWhile_append_stop hdig hplus]
  simp [hemp, List.reverse_reverse, digitsVal_natChars, isPySpace]

theorem guestSuffix_make_entry (d : Entry) {n : Nat} (hn : 1 ≤ n) (g : Bool) :
    guestSuffix (_make_entry d n g) = some (n, g, pyStrip d) := by
  have hrev :
      (_make_entry d n g).reverse =
        (if g then [zws] else []) ++ ((natChars n).reverse ++ '+' :: ' ' :: (pyStrip d).reverse) := by
    simp only [_make_entry, if_neg (by omega : ¬ n = 0)]
    cases g <;> simp [List.reverse_append]
  cases g with
  | true =>
    have h1 : (_make_entry d n true).reverse =
        zws :: ((natChars n).reverse ++ '+' :: ' ' :: (pyStrip d).reverse) := by
      simpa using hrev
    simp only [guestSuffix, h1, if_pos rfl]
    rw [guestSuffixCore_digits]
    simp
  | false =>
    obtain ⟨c0, cs, hc0⟩ : ∃ c0 cs, (natChars n).reverse = c0 :: cs := by
      cases hnr : (natChars n).reverse with
      | nil => exact absurd (by simpa using hnr) (natChars_ne_nil n)
      | cons a l => exact ⟨a, l, rfl⟩
    have hc0d : Char.isDigit c0 = true := by
      have := natChars_all_digit n c0 (List.mem_reverse.mp (by simp [hc0]))
      exact this
    have hc0z : ¬ (c0 = zws) := isDigit_ne_zws hc0d
    have h1 : (_make_entry d n false).reverse =
        c0 :: (cs ++ '+' :: ' ' :: (pyStrip d).reverse) := by
      simpa [hc0] using hrev
    simp only [guestSuffix, h1, if_neg hc0z]
    have h2 : c0 :: (cs ++ '+' :: ' ' :: (pyStrip d).reverse) =
        (natChars n).reverse ++ '+' :: ' ' :: (pyStrip d).reverse := by
      simp [hc0]
    rw [h2, guestSuffixCore_digits]
    simp

theorem guest_count_make_entry (d : Entry) {n : Nat} (hn : 1 ≤ n) (g : Bool) :
    _guest_count (_make_entry d n g) = n := by
  simp [_guest_count, guestSuffix_make_entry d hn g]

theorem is_guest_only_make_entry (d : Entry) {n : Nat} (hn : 1 ≤ n) (g : Bool) :
    _is_guest_only (_make_entry d n g) = g := by
  simp [_is_guest_only, guestSuffix_make_entry d hn g]

theorem strip_guest_make_entry (d : Entry) {n : Nat} (hn : 1 ≤ n) (g : Bool) :
    _strip_guest (_make_entry d n g) = pyStrip (pyStrip d) := by
  simp [_strip_guest, guestSuffix_make_entry d hn g]

/-! ### Identity matching (`_find_user_index`) -/

/-- Does `xs` start with `pre`? -/
def listStartsWith : List Char → List Char → Bool
  | _, [] => true
  | [], _ :: _ => false
  | a :: as, b :: bs => a = b && listStartsWith as bs

/-- Python's `needle in hay` substring test. -/
def listContains : List Char → List Char → Bool
  | hay, needle =>
    if listStartsWith hay needle then true
    else
      match hay with
      | [] => false
      | _ :: rest => listContains rest needle

/-- The handle test `un and un in el` of the scan loop. -/
def handleHit (un : Option Entry) (el : Entry) : Bool :=
  match un with
  | some u => listContains el u
  | none => false

/-- The scan of `_find_user_index`: `dn`, `un` are the precomputed
lowercased comparison keys; returns the first matching position. -/
def findFrom (dn : Entry) (un : Option Entry) : List Entry → Option Nat
  | [] => none
  | e :: rest =>
    if handleHit un (lowerList e) then some 0
    else if _strip_guest (lowerList e) = dn then some 0
    else (findFrom dn un rest).map (· + 1)

/-- The handle key: `"@" + username.lower()` when the username is truthy. -/
def handleKey (username : Option Entry) : Option Entry :=
  match username with
  | some u => if u.isEmpty then none else some ('@' :: lowerList u)
  | none => none

/-- `_find_user_index` of bot.py, with the `-1` sentinel factored through
`Option`. -/
def findUserIdx (users : List Entry) (display_name : Entry) (username : Option Entry) :
    Option Nat :=
  findFrom (pyStrip (lowerList display_name)) (handleKey username) users

/-- `_find_user_index` of bot.py (returns `-1` when nothing matches). -/
def _find_user_index (users : List Entry) (display_name : Entry) (username : Option Entry) :
    Int :=
  match findUserIdx users display_name username with
  | some i => (i : Int)
  | none => -1

/-! ### Capacity accounting and display expansion -/

/-- Slots contributed by one entry: `owner+guests -> 1+N; guest-only -> N;
solo -> 1` (the loop body of `_total_count`). -/
def entrySlots (e : Entry) : Nat :=
  let n := _guest_count e
  if n = 0 then 1 else if _is_guest_only e then n else 1 + n

/-- `_total_count` of bot.py. -/
def _total_count : List Entry → Nat
  | [] => 0
  | e :: rest => entrySlots e + _total_count rest

/-- `_expanded_users` of bot.py: one display line for the host (when
present) and one `"<base> +1"` line per guest. -/
def _expanded_users : List Entry → List Entry
  | [] => []
  | e :: rest =>
    let n := _guest_count e
    let base := _strip_guest e
    (if n = 0 then [base]
     else (if _is_guest_only e then [] else [base]) ++ List.replicate n (base ++ " +1".data)) ++
      _expanded_users rest

/-- The participant count displayed by `format_list`
(`count = len(expanded)`, bot.py line 153). -/
def format_list_count (users : List Entry) : Nat := (_expanded_users users).length

/-! ### The per-chat roster state and its mutating operations -/

/-- Limit on guests brought by one person (`MAX_GUESTS_PER_HOST`). -/
def MAX_GUESTS_PER_HOST : Nat := 5

/-- The per-chat record kept in `state[cid]` (bot.py `ensure_chat`). -/
structure ChatState where
  openFlag : Bool
  date : List Char
  time : List Char
  field : List Char
  limit : Nat
  users : List Entry
deriving DecidableEq, Repr

/-- Outcome of a `'+'` message (`plus_message`). -/
inductive JoinRes where
  | closed     -- "Запись закрыта"
  | limitFull  -- "Нет свободных мест"
  | restored   -- guest-only entry, host returns
  | already    -- "Ты уже в списке"
  | joined     -- fresh entry appended
deriving DecidableEq, Repr

/-- `plus_message` of bot.py (the `'+'` join command). -/
def plus_message (st : ChatState) (disp : Entry) (uname : Option Entry) :
    ChatState × JoinRes :=
  if st.openFlag = false then (st, .closed)
  else
    let users := st.users
    let limit := st.limit
    let cur := _total_count users
    match findUserIdx users disp uname with
    | some i =>
      let entry := users.getD i []
      if _is_guest_only entry then
        if limit ≠ 0 ∧ cur + 1 > limit then (st, .limitFull)
        else
          let n := _guest_count entry
          ({ st with users := users.set i (_make_entry (_strip_guest entry) n false) },
           .restored)
      else (st, .already)
    | none =>
      if limit ≠ 0 ∧ cur + 1 > limit then (st, .limitFull)
      else ({ st with users := users ++ [_make_entry disp 0 false] }, .joined)

/-- Outcome of a `'+N'` message (`_plus_n_common`). -/
inductive PlusNRes where
  | closed
  | maxGuests   -- "Максимум +5" (absent identity, n > 5)
  | limitFull
  | joinedWith  -- fresh entry with n guests appended
  | tooMany     -- "Слишком много гостей" (guest cap)
  | added       -- guests added to the existing entry
deriving DecidableEq, Repr

/-- `_plus_n_common` of bot.py (the `'+N'` add-guests command). -/
def plus_n (st : ChatState) (disp : Entry) (uname : Option Entry) (n : Nat) :
    ChatState × PlusNRes :=
  if st.openFlag = false then (st, .closed)
  else
    let users := st.users
    let limit := st.limit
    let cur := _total_count users
    match findUserIdx users disp uname with
    | none =>
      if n > MAX_GUESTS_PER_HOST then (st, .maxGuests)
      else if limit ≠ 0 ∧ cur + (1 + n) > limit then (st, .limitFull)
      else ({ st with users := users ++ [_make_entry disp n false] }, .joinedWith)
    | some i =>
      let entry := users.getD i []
      let base := _strip_guest entry
      let cur_n := _guest_count entry
      let extra := n + (if _is_guest_only entry then 1 else 0)
      if cur_n + n > MAX_GUESTS_PER_HOST then (st, .tooMany)
      else if limit ≠ 0 ∧ cur + extra > limit then (st, .limitFull)
      else
        -- `users[idx] = _make_entry(base, new_n, False)`: the host is
        -- (re)established after '+N'
        ({ st with users := users.set i (_make_entry base (cur_n + n) false) }, .added)

/-- Outcome of a `'-'` message (`minus_message`). -/
inductive MinusRes where
  | notFound         -- "Тебя нет в списке"
  | hostRemoved      -- guests remain as a guest-only entry
  | guestsOnlyAlready -- "У тебя уже остались только гости"
  | removed          -- plain entry deleted
deriving DecidableEq, Repr

/-- `minus_message` of bot.py (the `'-'` leave command). -/
def minus_message (st : ChatState) (disp : Entry) (uname : Option Entry) :
    ChatState × MinusRes :=
  let users := st.users
  match findUserIdx users disp uname with
  | none => (st, .notFound)
  | some i =>
    let entry := users.getD i []
    let n := _guest_count entry
    if n > 0 ∧ _is_guest_only entry = false then
      ({ st with users := users.set i (_make_entry (_strip_guest entry) n true) },
       .hostRemoved)
    else if _is_guest_only entry then (st, .guestsOnlyAlready)
    else ({ st with users := users.eraseIdx i }, .removed)

/-- Outcome of a `'-N'` message (`_minus_n_common`). -/
inductive MinusNRes where
  | notFound    -- "Тебя нет в списке"
  | noGuests    -- "У тебя нет гостей"
  | clearedAll  -- n >= current: all guests removed
  | decreased   -- n < current: count decreased
deriving DecidableEq, Repr

/-- `_minus_n_common` of bot.py (the `'-N'` remove-guests command). -/
def minus_n (st : ChatState) (disp : Entry) (uname : Option Entry) (n : Nat) :
    ChatState × MinusNRes :=
  let users := st.users
  match findUserIdx users disp uname with
  | none => (st, .notFound)
  | some i =>
    let entry := users.getD i []
    let base := _strip_guest entry
    let cur_n := _guest_count entry
    let g := _is_guest_only entry
    if cur_n = 0 then (st, .noGuests)
    else if n ≥ cur_n then
      if g then ({ st with users := users.eraseIdx i }, .clearedAll)
      else ({ st with users := users.set i base }, .clearedAll)
    else ({ st with users := users.set i (_make_entry base (cur_n - n) g) }, .decreased)

/-! ### `/open` and its date/time validation -/

/-- Gregorian leap-year rule (used by `datetime`). -/
def leapYear (y : Nat) : Bool := y % 4 = 0 && (y % 100 ≠ 0 || y % 400 = 0)

/-- Length of a month, as `datetime` validates it. -/
def daysInMonth (m y : Nat) : Nat :=
  if m = 2 then (if leapYear y then 29 else 28)
  else if m = 4 || m = 6 || m = 9 || m = 11 then 30
  else 31

/-- Validity of day/month/2-digit-year, with `%y`'s 1969–2068 pivot. -/
def validDMY (d m y2 : Nat) : Bool :=
  let y := if y2 ≤ 68 then 2000 + y2 else 1900 + y2
  (1 ≤ m && m ≤ 12) && (1 ≤ d && d ≤ daysInMonth m y)

/-- Does `parse_date` (i.e. `datetime.strptime(s, "%d/%m/%y")`) accept `s`? -/
def parse_date_ok (s : List Char) : Bool :=
  let ds1 := s.takeWhile Char.isDigit
  let r1 := s.dropWhile Char.isDigit
  match r1 with
  | '/' :: r2 =>
    let ds2 := r2.takeWhile Char.isDigit
    let r3 := r2.dropWhile Char.isDigit
    match r3 with
    | '/' :: r4 =>
      (1 ≤ ds1.length && ds1.length ≤ 2) && (1 ≤ ds2.length && ds2.length ≤ 2) &&
        (r4.length = 2 && r4.all Char.isDigit) &&
        validDMY (digitsVal ds1) (digitsVal ds2) (digitsVal r4)
    | _ => false
  | _ => false

/-- Does `parse_time` (regex `^\d{2}:\d{2}-\d{2}:\d{2}$`) accept `s`? -/
def parse_time_ok : List Char → Bool
  | [a, b, c, d, e, f, g, h, i, j, k] =>
    a.isDigit && b.isDigit && c = ':' && d.isDigit && e.isDigit && f = '-' &&
      g.isDigit && h.isDigit && i = ':' && j.isDigit && k.isDigit
  | _ => false

/--
`open_cmd` of bot.py: inside one `try`, assign the parsed date (arg 1, if
given), then the parsed time (arg 2, if given), then set `open=True`; a
`ValueError` aborts the remainder but keeps the assignments already made.
-/
def open_cmd (st : ChatState) (args : List (List Char)) : ChatState :=
  match args with
  | [] => { st with openFlag := true }
  | [d] =>
    if parse_date_ok d then { st with date := d, openFlag := true } else st
  | d :: t :: _ =>
    if parse_date_ok d then
      if parse_time_ok t then { st with date := d, time := t, openFlag := true }
      else { st with date := d }
    else st

/-! ### C4: the worked scenario -/

/--
C4 counterexample: in the spec's scenario (`limit=0`, entries
`["Alice (@a)", "Bob +2"]`) the claim puts `totalOccupied` at 3, but
`_total_count` returns 4 (Alice is 1 slot, Bob plus two guests are 3).
-/
theorem C4_counterexample :
    _total_count ["Alice (@a)".data, "Bob +2".data] ≠ 3 := by decide

/--
C4 (amended): `_expanded_users ["Alice (@a)", "Bob +2"]` is exactly the
four lines `["Alice (@a)", "Bob", "Bob +1", "Bob +1"]`, and
`_total_count` of that entries list is 4 (not 3).
-/
theorem C4_scenario :
    _expanded_users ["Alice (@a)".data, "Bob +2".data] =
        ["Alice (@a)".data, "Bob".data, "Bob +1".data, "Bob +1".data] ∧
      _total_count ["Alice (@a)".data, "Bob +2".data] = 4 := by
  exact ⟨by decide, by decide⟩

/-! ### C10: expansion length equals the occupied-slot total -/

theorem expanded_block_length (e : Entry) :
    ((if _guest_count e = 0 then [_strip_guest e]
      else (if _is_guest_only e then [] else [_strip_guest e]) ++
        List.replicate (_guest_count e) (_strip_guest e ++ " +1".data)).length) =
      entrySlots e := by
  by_cases h0 : _guest_count e = 0
  · simp [h0, entrySlots]
  · by_cases hg : _is_guest_only e
    · simp [h0, hg, entrySlots]
    · simp [h0, hg, entrySlots]
      omega

/--
C10: for every entries list, the number of display lines produced by
`_expanded_users` — which is the participant count `format_list` shows and
measures against the limit — equals `_total_count`, the number used by the
capacity checks.
-/
theorem C10_expand_length (users : List Entry) :
    format_list_count users = _total_count users ∧
      (_expanded_users users).length = _total_count users := by
  have main : ∀ us : List Entry, (_expanded_users us).length = _total_count us := by
    intro us
    induction us with
    | nil => rfl
    | cons e rest ih =>
      show (_expanded_users (e :: rest)).length = _total_count (e :: rest)
      simp only [_expanded_users, _total_count, List.length_append]
      rw [ih, expanded_block_length e]
  exact ⟨main users, main users⟩

/-! ### C3: codec round-trip -/

/--
C3 counterexample: the host display `"X +1"` with `hostPresent = true`,
`guestCount = 0` is a valid entry by the claim's side conditions, but its
encoding (`_make_entry "X +1" 0 false = "X +1"`) decodes to
`("X", hostPresent, 1)`, not back to the original triple.
-/
theorem C3_counterexample :
    ¬ (_strip_guest (_make_entry ("X +1".data) 0 false) = "X +1".data ∧
        _guest_count (_make_entry ("X +1".data) 0 false) = 0 ∧
        _is_guest_only (_make_entry ("X +1".data) 0 false) = false) := by
  decide

/--
C3 (amended): for every valid entry `(hostDisplay, hostPresent,
guestCount)` — `guestCount ≤ 5`, guest-only implies a positive guest count
— whose display is already whitespace-stripped and does not itself end in
a guest-suffix pattern, decoding the encoded string recovers the entry:
`_strip_guest`, `_guest_count` and `_is_guest_only` applied to
`_make_entry hostDisplay guestCount (not hostPresent)` give back
`hostDisplay`, `guestCount` and `not hostPresent`.
-/
theorem C3_roundtrip (d : Entry) (hp : Bool) (gc : Nat)
    (hval : hp = false → 1 ≤ gc) (hle : gc ≤ 5)
    (hstrip : pyStrip d = d) (hnos : guestSuffix d = none) :
    _strip_guest (_make_entry d gc (!hp)) = d ∧
      _guest_count (_make_entry d gc (!hp)) = gc ∧
      _is_guest_only (_make_entry d gc (!hp)) = (!hp) := by
  by_cases h0 : gc = 0
  · have hhp : hp = true := by
      cases hp with
      | false => exact absurd (hval rfl) (by omega)
      | true => rfl
    subst hhp h0
    rw [make_entry_zero, hstrip]
    exact ⟨by simp [_strip_guest, hnos, hstrip], by simp [_guest_count, hnos],
      by simp [_is_guest_only, hnos]⟩
  · have h1 : 1 ≤ gc := by omega
    refine ⟨?_, guest_count_make_entry d h1 (!hp), is_guest_only_make_entry d h1 (!hp)⟩
    rw [strip_guest_make_entry d h1 (!hp), hstrip, hstrip]

/-- C3 witness: the round-trip at the concrete guest-only entry
`("Bob", hostPresent = false, guestCount = 2)`. -/
theorem C3_roundtrip_witness :
    _strip_guest (_make_entry ("Bob".data) 2 (!false)) = "Bob".data ∧
      _guest_count (_make_entry ("Bob".data) 2 (!false)) = 2 ∧
      _is_guest_only (_make_entry ("Bob".data) 2 (!false)) = (!false) :=
  C3_roundtrip ("Bob".data) false 2 (by intro _; omega) (by omega) (by decide) (by decide)

/-! ### C6: the identity matcher against its specification -/

/-- Index of the first entry satisfying `p`, scanning in list order. -/
def firstSatisfying (p : Entry → Bool) : List Entry → Option Nat
  | [] => none
  | e :: rest => if p e then some 0 else (firstSatisfying p rest).map (· + 1)

/-- The per-entry test exactly as the claim words it: a provided handle
matches as a lowercased `"@handle"` substring of the lowercased entry, or
the guest-stripped entry equals the display name case-insensitively. -/
def claimEntryTest (displayName : Entry) (handle : Option Entry) (e : Entry) : Bool :=
  (match handle with
   | some h => listContains (lowerList e) ('@' :: lowerList h)
   | none => false) ||
  (_strip_guest (lowerList e) = lowerList displayName)

/-- The matcher as the claim describes it (`-1` when nothing matches). -/
def claim_index (users : List Entry) (displayName : Entry) (handle : Option Entry) : Int :=
  match firstSatisfying (claimEntryTest displayName handle) users with
  | some i => (i : Int)
  | none => -1

/-- The per-entry test as amended: the handle counts only when nonempty,
and the display name is compared whitespace-trimmed. -/
def claimEntryTestAmended (displayName : Entry) (handle : Option Entry) (e : Entry) : Bool :=
  (match handleKey handle with
   | some u => listContains (lowerList e) u
   | none => false) ||
  (_strip_guest (lowerList e) = pyStrip (lowerList displayName))

/-- The amended claim's matcher. -/
def claim_index_amended (users : List Entry) (displayName : Entry) (handle : Option Entry) :
    Int :=
  match firstSatisfying (claimEntryTestAmended displayName handle) users with
  | some i => (i : Int)
  | none => -1

/--
C6 counterexample: two concrete inputs on which `_find_user_index`
differs from the matcher exactly as the claim words it.  With display name
`" bob"` (leading blank) the code trims before comparing and finds entry
`"bob"`, the claim's rule does not; with an empty handle the code ignores
it (Python truthiness), while the claim's rule matches `"@"` as a
substring of `"a@b"`.
-/
theorem C6_counterexample :
    (_find_user_index ["bob".data] (" bob".data) none = 0 ∧
        claim_index ["bob".data] (" bob".data) none = -1) ∧
      (_find_user_index ["a@b".data] ("zzz".data) (some []) = -1 ∧
        claim_index ["a@b".data] ("zzz".data) (some []) = 0) := by
  decide

theorem findFrom_eq_firstSatisfying (dn : Entry) (un : Option Entry) (users : List Entry) :
    findFrom dn un users =
      firstSatisfying
        (fun e =>
          (match un with
           | some u => listContains (lowerList e) u
           | none => false) ||
          (_strip_guest (lowerList e) = dn)) users := by
  cases un with
  | none =>
    induction users with
    | nil => rfl
    | cons e rest ih =>
      by_cases h2 : _strip_guest (lowerList e) = dn
      · simp [findFrom, firstSatisfying, handleHit, h2]
      · simp [findFrom, firstSatisfying, handleHit, h2, ih]
  | some u =>
    induction users with
    | nil => rfl
    | cons e rest ih =>
      by_cases h1 : listContains (lowerList e) u
      · simp [findFrom, firstSatisfying, handleHit, h1]
      · by_cases h2 : _strip_guest (lowerList e) = dn
        · simp [findFrom, firstSatisfying, handleHit, h1, h2]
        · simp [findFrom, firstSatisfying, handleHit, h1, h2, ih]

/--
C6 (amended): `_find_user_index` returns the index of the first entry,
scanning in list order, at which either the handle is provided, nonempty,
and its lowercased `"@handle"` token is a substring of the lowercased
encoded entry, or the guest-stripped entry equals the whitespace-trimmed
display name case-insensitively; it returns `-1` exactly when no entry
satisfies either test.
-/
theorem C6_find_user_index (users : List Entry) (displayName : Entry)
    (handle : Option Entry) :
    _find_user_index users displayName handle =
      claim_index_amended users displayName handle := by
  unfold _find_user_index findUserIdx claim_index_amended
  rw [findFrom_eq_firstSatisfying]
  rfl

/-! ### C5: `/open` error handling -/

/--
C5 counterexample: with the roster closed, `open_cmd` on an invalid date
(`"xx"`) does not open it (the claim says an invalid field is rejected
"and the operation still sets open=true"); and on a valid date with an
invalid time the date is updated while `open` stays false — a partially
mutated state, which the claim says is never observable.
-/
theorem C5_counterexample :
    (open_cmd ⟨false, "01/01/25".data, "20:00-22:00".data, [], 0, []⟩ ["xx".data]).openFlag
        = false ∧
      (open_cmd ⟨false, "01/01/25".data, "20:00-22:00".data, [], 0, []⟩
          ["02/01/25".data, "bad".data]) =
        ⟨false, "02/01/25".data, "20:00-22:00".data, [], 0, []⟩ := by
  decide

/--
C5 (amended): `open_cmd` with no arguments always opens; an invalid date
argument aborts the whole operation with no state change (`open` is not
set); a valid date with an invalid time argument updates the date but
aborts before opening — a partial mutation that is observable; only when
every supplied argument is valid is the operation fully applied.
-/
theorem C5_open_cmd (st : ChatState) (d t : List Char) (rest : List (List Char)) :
    open_cmd st [] = { st with openFlag := true } ∧
      (parse_date_ok d = true →
        open_cmd st [d] = { st with date := d, openFlag := true }) ∧
      (parse_date_ok d = false → open_cmd st [d] = st) ∧
      (parse_date_ok d = true → parse_time_ok t = true →
        open_cmd st (d :: t :: rest) = { st with date := d, time := t, openFlag := true }) ∧
      (parse_date_ok d = true → parse_time_ok t = false →
        open_cmd st (d :: t :: rest) = { st with date := d }) ∧
      (parse_date_ok d = false → open_cmd st (d :: t :: rest) = st) := by
  refine ⟨rfl, ?_, ?_, ?_, ?_, ?_⟩
  · intro h1; simp [open_cmd, h1]
  · intro h1; simp [open_cmd, h1]
  · intro h1 h2; simp [open_cmd, h1, h2]
  · intro h1 h2; simp [open_cmd, h1, h2]
  · intro h1; simp [open_cmd, h1]

/-- C5 witness: the fully-valid two-argument invocation at a concrete
closed state. -/
theorem C5_open_cmd_witness :
    parse_date_ok ("02/01/25".data) = true ∧ parse_time_ok ("21:00-23:00".data) = true ∧
      open_cmd ⟨false, "01/01/25".data, "20:00-22:00".data, [], 0, []⟩
          ["02/01/25".data, "21:00-23:00".data] =
        ⟨true, "02/01/25".data, "21:00-23:00".data, [], 0, []⟩ :=
  ⟨by decide, by decide,
    (C5_open_cmd ⟨false, "01/01/25".data, "20:00-22:00".data, [], 0, []⟩
        ("02/01/25".data) ("21:00-23:00".data) []).2.2.2.1 (by decide) (by decide)⟩

/-! ### C7: the `'-'` leave command -/

/--
C7: `leave` is the stated three-way case split.  When the caller's entry
has guests and a present host it becomes guest-only with the guest count
unchanged; when it is already guest-only the operation is a reported
no-op; when it is a plain host without guests the entry is deleted; when
the identity is not found nothing changes; and the whole behaviour is
independent of the roster's `open` flag.
-/
theorem C7_leave (st : ChatState) (disp : Entry) (uname : Option Entry) :
    (findUserIdx st.users disp uname = none →
      minus_message st disp uname = (st, .notFound)) ∧
      (∀ i, findUserIdx st.users disp uname = some i →
        1 ≤ _guest_count (st.users.getD i []) →
        _is_guest_only (st.users.getD i []) = false →
        minus_message st disp uname =
          ({ st with users := (st.users.set i
              (_make_entry (_strip_guest (st.users.getD i []))
                (_guest_count (st.users.getD i [])) true)) }, .hostRemoved) ∧
        _is_guest_only (_make_entry (_strip_guest (st.users.getD i []))
          (_guest_count (st.users.getD i [])) true) = true ∧
        _guest_count (_make_entry (_strip_guest (st.users.getD i []))
          (_guest_count (st.users.getD i [])) true) = _guest_count (st.users.getD i [])) ∧
      (∀ i, findUserIdx st.users disp uname = some i →
        _is_guest_only (st.users.getD i []) = true →
        minus_message st disp uname = (st, .guestsOnlyAlready)) ∧
      (∀ i, findUserIdx st.users disp uname = some i →
        _guest_count (st.users.getD i []) = 0 →
        _is_guest_only (st.users.getD i []) = false →
        minus_message st disp uname = ({ st with users := st.users.eraseIdx i }, .removed)) ∧
      (∀ b, minus_message { st with openFlag := b } disp uname =
        ({ (minus_message st disp uname).1 with openFlag := b },
          (minus_message st disp uname).2)) := by
  refine ⟨?_, ?_, ?_, ?_, ?_⟩
  · intro hf; simp [minus_message, hf]
  · intro i hf h1 h2
    have hcond : _guest_count (st.users.getD i []) > 0 ∧
        _is_guest_only (st.users.getD i []) = false := ⟨by omega, h2⟩
    refine ⟨?_, is_guest_only_make_entry _ h1 true, guest_count_make_entry _ h1 true⟩
    simp only [minus_message, hf]
    rw [if_pos hcond]
  · intro i hf hg
    have hcond : ¬ (_guest_count (st.users.getD i []) > 0 ∧
        _is_guest_only (st.users.getD i []) = false) := by
      intro h; rw [hg] at h; exact absurd h.2 (by decide)
    simp only [minus_message, hf]
    rw [if_neg hcond, if_pos hg]
  · intro i hf h0 h2
    have hcond : ¬ (_guest_count (st.users.getD i []) > 0 ∧
        _is_guest_only (st.users.getD i []) = false) := by
      intro h; omega
    have hcond2 : ¬ (_is_guest_only (st.users.getD i []) = true) := by
      intro hgo; rw [h2] at hgo; exact absurd hgo (by decide)
    simp only [minus_message, hf]
    rw [if_neg hcond, if_neg hcond2]
  · intro b
    simp only [minus_message]
    have husers : ({ st with openFlag := b } : ChatState).users = st.users := rfl
    rw [husers]
    cases hf : findUserIdx st.users disp uname with
    | none => rfl
    | some i =>
      dsimp only
      by_cases hcond : _guest_count (st.users.getD i []) > 0 ∧
          _is_guest_only (st.users.getD i []) = false
      · rw [if_pos hcond, if_pos hcond]
      · by_cases hg : _is_guest_only (st.users.getD i []) = true
        · rw [if_neg hcond, if_neg hcond, if_pos hg, if_pos hg]
        · rw [if_neg hcond, if_neg hcond, if_neg hg, if_neg hg]

/-- C7 witness: the concrete roster `["Bob +2"]`, caller `Bob`, exercising
the host-with-guests branch (the entry becomes `"Bob +2<ZWS>"`). -/
theorem C7_leave_witness :
    1 ≤ _guest_count ("Bob +2".data) ∧ _is_guest_only ("Bob +2".data) = false ∧
      minus_message ⟨false, [], [], [], 0, ["Bob +2".data]⟩ ("Bob".data) none =
        (⟨false, [], [], [], 0, ["Bob +2".data ++ [zws]]⟩, .hostRemoved) ∧
      _guest_count ("Bob +2".data ++ [zws]) = 2 :=
  ⟨by decide, by decide,
    by exact ((C7_leave ⟨false, [], [], [], 0, ["Bob +2".data]⟩ ("Bob".data) none).2.1 0
        (by decide) (by decide) (by decide)).1,
    by decide⟩

/-! ### C1: `'+N'` on a guest-only entry -/

/--
C1 counterexample: an accepted `+1` from a caller whose entry is the
guest-only `"Bob +2<ZWS>"` produces `"Bob +3"` — the host is restored
(`hostPresent` flips to true), contradicting the claim that the entry
stays guest-only and only `join` restores the host.
-/
theorem C1_counterexample :
    (plus_n ⟨true, [], [], [], 0, ["Bob +2".data ++ [zws]]⟩ ("Bob".data) none 1).2 =
        .added ∧
      (plus_n ⟨true, [], [], [], 0, ["Bob +2".data ++ [zws]]⟩ ("Bob".data) none 1).1.users =
        ["Bob +3".data] ∧
      _is_guest_only ("Bob +2".data ++ [zws]) = true ∧
      _is_guest_only ("Bob +3".data) = false := by
  decide

/--
C1 (amended): an accepted `addGuests(identity, n)` (`'+N'`, `1 ≤ n`) on an
identity whose entry is guest-only increases that entry's guest count by
`n` AND restores the host: the rewritten entry is
`_make_entry base (guestCount + n) false`, whose decoded `hostPresent` is
true.  (The limit check accounts for the extra host slot:
`extra_slots = n + 1` for a guest-only entry.)
-/
theorem C1_add_guests (st : ChatState) (disp : Entry) (uname : Option Entry) (n i : Nat)
    (hn : 1 ≤ n)
    (hf : findUserIdx st.users disp uname = some i)
    (hg : _is_guest_only (st.users.getD i []) = true)
    (hacc : (plus_n st disp uname n).2 = .added) :
    (plus_n st disp uname n).1.users =
        st.users.set i (_make_entry (_strip_guest (st.users.getD i []))
          (_guest_count (st.users.getD i []) + n) false) ∧
      _is_guest_only (_make_entry (_strip_guest (st.users.getD i []))
        (_guest_count (st.users.getD i []) + n) false) = false ∧
      _guest_count (_make_entry (_strip_guest (st.users.getD i []))
        (_guest_count (st.users.getD i []) + n) false) =
        _guest_count (st.users.getD i []) + n := by
  have hn' : 1 ≤ _guest_count (st.users.getD i []) + n := by omega
  refine ⟨?_, is_guest_only_make_entry _ hn' false, guest_count_make_entry _ hn' false⟩
  by_cases hopen : st.openFlag = false
  · have hres : (plus_n st disp uname n).2 = .closed := by simp [plus_n, hopen]
    rw [hres] at hacc; exact absurd hacc (by decide)
  · by_cases hmax : _guest_count (st.users.getD i []) + n > MAX_GUESTS_PER_HOST
    · have hres : (plus_n st disp uname n).2 = .tooMany := by
        simp only [plus_n, if_neg hopen, hf]; rw [if_pos hmax]
      rw [hres] at hacc; exact absurd hacc (by decide)
    · by_cases hlim : st.limit ≠ 0 ∧
          _total_count st.users +
            (n + (if _is_guest_only (st.users.getD i []) then 1 else 0)) > st.limit
      · have hres : (plus_n st disp uname n).2 = .limitFull := by
          simp only [plus_n, if_neg hopen, hf]
          rw [if_neg hmax, if_pos hlim]
        rw [hres] at hacc; exact absurd hacc (by decide)
      · simp only [plus_n, if_neg hopen, hf]
        rw [if_neg hmax, if_neg hlim]

/-- C1 witness: the concrete guest-only roster `["Bob +2<ZWS>"]` with an
accepted `+1` from Bob. -/
theorem C1_add_guests_witness :
    findUserIdx ["Bob +2".data ++ [zws]] ("Bob".data) none = some 0 ∧
      _is_guest_only (["Bob +2".data ++ [zws]].getD 0 []) = true ∧
      (plus_n ⟨true, [], [], [], 0, ["Bob +2".data ++ [zws]]⟩ ("Bob".data) none 1).2 =
        .added ∧
      (plus_n ⟨true, [], [], [], 0, ["Bob +2".data ++ [zws]]⟩ ("Bob".data) none 1).1.users =
        (["Bob +2".data ++ [zws]] : List Entry).set 0
          (_make_entry (_strip_guest (["Bob +2".data ++ [zws]].getD 0 []))
            (_guest_count (["Bob +2".data ++ [zws]].getD 0 []) + 1) false) :=
  ⟨by decide, by decide, by decide,
    (C1_add_guests ⟨true, [], [], [], 0, ["Bob +2".data ++ [zws]]⟩ ("Bob".data) none 1 0
      (by decide) (by decide) (by decide) (by decide)).1⟩

/-! ### C8: the `'-N'` remove-guests command -/

/--
C8 counterexample: the claim's "becomes a plain host entry with
guestCount = 0" clause fails on a roster the bot itself produces.  A user
whose display name is `"A +2"` joins (entry `"A +2"`), is not re-found by
the matcher, so a later `+1` appends `"A +2 +1"`; their `-1` then matches
the stacked entry, removes its only guest, and leaves `"A +2"` — an entry
whose decoded guest count is 2, not 0.
-/
theorem C8_counterexample :
    (plus_n (plus_message ⟨true, [], [], [], 0, []⟩ ("A +2".data) none).1
        ("A +2".data) none 1).1.users = ["A +2".data, "A +2 +1".data] ∧
      _guest_count ("A +2 +1".data) = 1 ∧ _is_guest_only ("A +2 +1".data) = false ∧
      (minus_n (plus_n (plus_message ⟨true, [], [], [], 0, []⟩ ("A +2".data) none).1
          ("A +2".data) none 1).1 ("A +2".data) none 1).2 = .clearedAll ∧
      (minus_n (plus_n (plus_message ⟨true, [], [], [], 0, []⟩ ("A +2".data) none).1
          ("A +2".data) none 1).1 ("A +2".data) none 1).1.users =
        ["A +2".data, "A +2".data] ∧
      _guest_count ("A +2".data) = 2 := by
  decide

/--
C8 (amended): `removeGuests(identity, n)` rejects with no state change
when the identity is absent or its guest count is 0; when `n ≥` the
current guest count it deletes a guest-only entry entirely, and reduces a
hosted entry to its stripped base — a plain host entry with guest count 0
provided that base carries no residual guest suffix (true of every entry
the codec produces from a suffix-free display name); when `n <` the
current guest count it decreases the count by `n`, preserving the entry's
guest-only flag.
-/
theorem C8_remove_guests (st : ChatState) (disp : Entry) (uname : Option Entry) (n : Nat) :
    (findUserIdx st.users disp uname = none → minus_n st disp uname n = (st, .notFound)) ∧
      (∀ i, findUserIdx st.users disp uname = some i →
        _guest_count (st.users.getD i []) = 0 → minus_n st disp uname n = (st, .noGuests)) ∧
      (∀ i, findUserIdx st.users disp uname = some i →
        1 ≤ _guest_count (st.users.getD i []) → _guest_count (st.users.getD i []) ≤ n →
        _is_guest_only (st.users.getD i []) = true →
        minus_n st disp uname n = ({ st with users := st.users.eraseIdx i }, .clearedAll)) ∧
      (∀ i, findUserIdx st.users disp uname = some i →
        1 ≤ _guest_count (st.users.getD i []) → _guest_count (st.users.getD i []) ≤ n →
        _is_guest_only (st.users.getD i []) = false →
        guestSuffix (_strip_guest (st.users.getD i [])) = none →
        minus_n st disp uname n =
          ({ st with users := (st.users.set i (_strip_guest (st.users.getD i []))) },
            .clearedAll) ∧
        _guest_count (_strip_guest (st.users.getD i [])) = 0 ∧
        _is_guest_only (_strip_guest (st.users.getD i [])) = false) ∧
      (∀ i, findUserIdx st.users disp uname = some i →
        1 ≤ n → n < _guest_count (st.users.getD i []) →
        minus_n st disp uname n =
          ({ st with users := (st.users.set i
              (_make_entry (_strip_guest (st.users.getD i []))
                (_guest_count (st.users.getD i []) - n)
                (_is_guest_only (st.users.getD i [])))) }, .decreased) ∧
        _guest_count (_make_entry (_strip_guest (st.users.getD i []))
          (_guest_count (st.users.getD i []) - n) (_is_guest_only (st.users.getD i []))) =
          _guest_count (st.users.getD i []) - n ∧
        _is_guest_only (_make_entry (_strip_guest (st.users.getD i []))
          (_guest_count (st.users.getD i []) - n) (_is_guest_only (st.users.getD i []))) =
          _is_guest_only (st.users.getD i [])) := by
  refine ⟨?_, ?_, ?_, ?_, ?_⟩
  · intro hf; simp [minus_n, hf]
  · intro i hf h0
    simp only [minus_n, hf]
    rw [if_pos h0]
  · intro i hf h1 hle hg
    simp only [minus_n, hf]
    rw [if_neg (by omega), if_pos (by omega : n ≥ _guest_count (st.users.getD i [])),
      if_pos hg]
  · intro i hf h1 hle hg hwf
    refine ⟨?_, by simp only [_guest_count, hwf], by simp only [_is_guest_only, hwf]⟩
    simp only [minus_n, hf]
    rw [if_neg (by omega), if_pos (by omega : n ≥ _guest_count (st.users.getD i [])),
      if_neg (by rw [hg]; decide)]
  · intro i hf hn hlt
    have h1 : 1 ≤ _guest_count (st.users.getD i []) - n := by omega
    refine ⟨?_, guest_count_make_entry _ h1 _, is_guest_only_make_entry _ h1 _⟩
    simp only [minus_n, hf]
    rw [if_neg (by omega), if_neg (by omega)]

/-- C8 witness: the roster `["Bob +2"]`, caller Bob, `-3` clearing all
guests down to the plain host `"Bob"`. -/
theorem C8_remove_guests_witness :
    findUserIdx ["Bob +2".data] ("Bob".data) none = some 0 ∧
      1 ≤ _guest_count (["Bob +2".data].getD 0 []) ∧
      _guest_count (["Bob +2".data].getD 0 []) ≤ 3 ∧
      _is_guest_only (["Bob +2".data].getD 0 []) = false ∧
      minus_n ⟨false, [], [], [], 0, ["Bob +2".data]⟩ ("Bob".data) none 3 =
        (⟨false, [], [], [], 0, ["Bob".data]⟩, .clearedAll) ∧
      _guest_count ("Bob".data) = 0 :=
  ⟨by decide, by decide, by decide, by decide,
    by exact ((C8_remove_guests ⟨false, [], [], [], 0, ["Bob +2".data]⟩ ("Bob".data) none 3).2.2.2.1
        0 (by decide) (by decide) (by decide) (by decide) (by decide)).1,
    by decide⟩

/-! ### C9: the guest-only validity invariant -/

/--
C9: evaluation of the code at the failing input.  A `'+'` join by a caller
whose display name is `"A +0<ZWS>"` (ZWS = U+200B, not whitespace, so
`strip()` keeps it) is accepted on an empty open roster and stores the
entry `"A +0<ZWS>"` — which decodes as guest-only (`hostPresent = false`)
with `guestCount = 0`, exactly the invalid entry the invariant says must
never exist.
-/
theorem C9_invariant_violation :
    (plus_message ⟨true, [], [], [], 0, []⟩ ("A +0".data ++ [zws]) none).2 = .joined ∧
      (plus_message ⟨true, [], [], [], 0, []⟩ ("A +0".data ++ [zws]) none).1.users =
        ["A +0".data ++ [zws]] ∧
      _is_guest_only ("A +0".data ++ [zws]) = true ∧
      _guest_count ("A +0".data ++ [zws]) = 0 := by
  decide

/-! ### Capacity bookkeeping lemmas for C2 -/

theorem entrySlots_of_count_zero {e : Entry} (h : _guest_count e = 0) : entrySlots e = 1 := by
  simp [entrySlots, h]

theorem entrySlots_guest_only {e : Entry} (hg : _is_guest_only e = true)
    (h1 : 1 ≤ _guest_count e) : entrySlots e = _guest_count e := by
  simp [entrySlots, hg]
  omega

theorem entrySlots_host {e : Entry} (hg : _is_guest_only e = false)
    (h1 : 1 ≤ _guest_count e) : entrySlots e = 1 + _guest_count e := by
  simp [entrySlots, hg]

theorem entrySlots_make_entry_host (b : Entry) {m : Nat} (hm : 1 ≤ m) :
    entrySlots (_make_entry b m false) = 1 + m := by
  have h1 := guest_count_make_entry b hm false
  have h2 := is_guest_only_make_entry b hm false
  simp only [entrySlots, h1, h2]
  rw [if_neg (by omega)]
  simp

theorem entrySlots_make_entry_guest (b : Entry) {m : Nat} (hm : 1 ≤ m) :
    entrySlots (_make_entry b m true) = m := by
  have h1 := guest_count_make_entry b hm true
  have h2 := is_guest_only_make_entry b hm true
  simp only [entrySlots, h1, h2]
  rw [if_neg (by omega)]
  simp

theorem total_set :
    ∀ (users : List Entry) (i : Nat) (x : Entry), i < users.length →
      _total_count (users.set i x) + entrySlots (users.getD i []) =
        _total_count users + entrySlots x := by
  intro users
  induction users with
  | nil => intro i x h; simp at h
  | cons e rest ih =>
    intro i x h
    cases i with
    | zero => simp [_total_count]; omega
    | succ j =>
      have hj : j < rest.length := by simpa using h
      have := ih j x hj
      simp only [List.set, _total_count, List.getD_cons_succ]
      omega

theorem total_eraseIdx :
    ∀ (users : List Entry) (i : Nat), i < users.length →
      _total_count (users.eraseIdx i) + entrySlots (users.getD i []) = _total_count users := by
  intro users
  induction users with
  | nil => intro i h; simp at h
  | cons e rest ih =>
    intro i h
    cases i with
    | zero => simp [_total_count]; omega
    | succ j =>
      have hj : j < rest.length := by simpa using h
      have := ih j hj
      simp only [List.eraseIdx, _total_count, List.getD_cons_succ]
      omega

theorem total_append_singleton (users : List Entry) (x : Entry) :
    _total_count (users ++ [x]) = _total_count users + entrySlots x := by
  induction users with
  | nil => simp [_total_count]
  | cons e rest ih =>
    show entrySlots e + _total_count (rest ++ [x]) =
      entrySlots e + _total_count rest + entrySlots x
    rw [ih]
    omega

theorem findFrom_lt (dn : Entry) (un : Option Entry) :
    ∀ (users : List Entry) (i : Nat), findFrom dn un users = some i → i < users.length := by
  intro users
  induction users with
  | nil => intro i h; exact absurd h (by simp [findFrom])
  | cons e rest ih =>
    intro i h
    simp only [findFrom] at h
    by_cases h1 : handleHit un (lowerList e) = true
    · rw [if_pos h1] at h
      cases h
      simp
    · rw [if_neg h1] at h
      by_cases h2 : _strip_guest (lowerList e) = dn
      · rw [if_pos h2] at h
        cases h
        simp
      · rw [if_neg h2] at h
        cases hr : findFrom dn un rest with
        | none => rw [hr] at h; exact absurd h (by simp)
        | some j =>
          rw [hr] at h
          simp at h
          have := ih j hr
          have hlen : (e :: rest).length = rest.length + 1 := rfl
          omega

theorem findUserIdx_lt {users : List Entry} {d : Entry} {u : Option Entry} {i : Nat}
    (h : findUserIdx users d u = some i) : i < users.length :=
  findFrom_lt _ _ users i h

theorem getD_mem_of_lt :
    ∀ (l : List Entry) (i : Nat), i < l.length → l.getD i [] ∈ l := by
  intro l
  induction l with
  | nil => intro i h; simp at h
  | cons e rest ih =>
    intro i h
    cases i with
    | zero => simp
    | succ j =>
      have hj : j < rest.length := by simpa using h
      simp only [List.getD_cons_succ]
      exact List.mem_cons_of_mem e (ih j hj)

/-! ### C2: the step relation over the four mutating operations -/

/-- A mutating roster operation (the caller's identity is passed alongside). -/
inductive Op where
  | join
  | addGuests (n : Nat)
  | leave
  | removeGuests (n : Nat)
deriving DecidableEq, Repr

/-- Did a `'+'` land a mutation? -/
def joinAccepted : JoinRes → Bool
  | .restored => true
  | .joined => true
  | _ => false

/-- Did a `'+N'` land a mutation? -/
def plusNAccepted : PlusNRes → Bool
  | .joinedWith => true
  | .added => true
  | _ => false

/-- Did a `'-'` land a mutation? -/
def minusAccepted : MinusRes → Bool
  | .hostRemoved => true
  | .removed => true
  | _ => false

/-- Did a `'-N'` land a mutation? -/
def minusNAccepted : MinusNRes → Bool
  | .clearedAll => true
  | .decreased => true
  | _ => false

/-- One command dispatch: the next state and whether the roster mutated. -/
def step (st : ChatState) (disp : Entry) (uname : Option Entry) : Op → ChatState × Bool
  | .join => ((plus_message st disp uname).1, joinAccepted (plus_message st disp uname).2)
  | .addGuests n => ((plus_n st disp uname n).1, plusNAccepted (plus_n st disp uname n).2)
  | .leave => ((minus_message st disp uname).1, minusAccepted (minus_message st disp uname).2)
  | .removeGuests n =>
    ((minus_n st disp uname n).1, minusNAccepted (minus_n st disp uname n).2)

/-- The slots the transition adds, computed from the pre-state as the spec
tables it: join adds 1; addGuests on an absent identity adds `1+n`, on a
present one `n` plus 1 when the entry is guest-only; leave frees exactly
the host slot; removeGuests frees `min n guestCount` guest slots. -/
def addedSlots (st : ChatState) (disp : Entry) (uname : Option Entry) : Op → Int
  | .join => 1
  | .addGuests n =>
    match findUserIdx st.users disp uname with
    | none => 1 + n
    | some i => n + (if _is_guest_only (st.users.getD i []) then 1 else 0)
  | .leave => -1
  | .removeGuests n =>
    match findUserIdx st.users disp uname with
    | none => 0
    | some i =>
      if n ≥ _guest_count (st.users.getD i []) then -(_guest_count (st.users.getD i []) : Int)
      else -(n : Int)

/-- A stored entry is well-formed: its stripped base carries no residual
guest suffix, and a guest-only marker comes with a positive guest count. -/
def GoodEntry (e : Entry) : Prop :=
  _guest_count (_strip_guest e) = 0 ∧ (_is_guest_only e = true → 1 ≤ _guest_count e)

/-- A caller display name is plain: stripped, it encodes no guest suffix. -/
def GoodName (d : Entry) : Prop := _guest_count (pyStrip d) = 0

/-- The guest-count argument of `'+N'`/`'-N'` is one of the 1–5 the
message patterns admit. -/
def OpValid : Op → Prop
  | .addGuests n => 1 ≤ n ∧ n ≤ 5
  | .removeGuests n => 1 ≤ n ∧ n ≤ 5
  | _ => True

theorem join_delta (st : ChatState) (disp : Entry) (uname : Option Entry)
    (hgood : ∀ e ∈ st.users, GoodEntry e) (hname : GoodName disp) :
    (joinAccepted (plus_message st disp uname).2 = true →
      ((_total_count (plus_message st disp uname).1.users : Int) =
        (_total_count st.users : Int) + 1)) ∧
      (joinAccepted (plus_message st disp uname).2 = false →
        (plus_message st disp uname).1.users = st.users) := by
  by_cases hopen : st.openFlag = false
  · have hres : plus_message st disp uname = (st, .closed) := by simp [plus_message, hopen]
    rw [hres]
    exact ⟨fun h => absurd h (by simp [joinAccepted]), fun _ => rfl⟩
  · cases hf : findUserIdx st.users disp uname with
    | some i =>
      have hi : i < st.users.length := findUserIdx_lt hf
      have hge : GoodEntry (st.users.getD i []) := hgood _ (getD_mem_of_lt _ i hi)
      by_cases hg : _is_guest_only (st.users.getD i []) = true
      · have hm : 1 ≤ _guest_count (st.users.getD i []) := hge.2 hg
        by_cases hlim : st.limit ≠ 0 ∧ _total_count st.users + 1 > st.limit
        · have hres : plus_message st disp uname = (st, .limitFull) := by
            simp only [plus_message, if_neg hopen, hf]
            rw [if_pos hg, if_pos hlim]
          rw [hres]
          exact ⟨fun h => absurd h (by simp [joinAccepted]), fun _ => rfl⟩
        · have hres : plus_message st disp uname =
              ({ st with users := (st.users.set i
                (_make_entry (_strip_guest (st.users.getD i []))
                  (_guest_count (st.users.getD i [])) false)) }, .restored) := by
            simp only [plus_message, if_neg hopen, hf]
            rw [if_pos hg, if_neg hlim]
          rw [hres]
          refine ⟨?_, fun h => absurd h (by simp [joinAccepted])⟩
          intro _
          have hset := total_set st.users i
            (_make_entry (_strip_guest (st.users.getD i []))
              (_guest_count (st.users.getD i [])) false) hi
          rw [entrySlots_make_entry_host _ hm, entrySlots_guest_only hg hm] at hset
          dsimp only
          omega
      · have hres : plus_message st disp uname = (st, .already) := by
          simp only [plus_message, if_neg hopen, hf]
          rw [if_neg hg]
        rw [hres]
        exact ⟨fun h => absurd h (by simp [joinAccepted]), fun _ => rfl⟩
    | none =>
      by_cases hlim : st.limit ≠ 0 ∧ _total_count st.users + 1 > st.limit
      · have hres : plus_message st disp uname = (st, .limitFull) := by
          simp only [plus_message, if_neg hopen, hf]
          rw [if_pos hlim]
        rw [hres]
        exact ⟨fun h => absurd h (by simp [joinAccepted]), fun _ => rfl⟩
      · have hres : plus_message st disp uname =
            ({ st with users := st.users ++ [_make_entry disp 0 false] }, .joined) := by
          simp only [plus_message, if_neg hopen, hf]
          rw [if_neg hlim]
        rw [hres]
        refine ⟨?_, fun h => absurd h (by simp [joinAccepted])⟩
        intro _
        have happ := total_append_singleton st.users (_make_entry disp 0 false)
        rw [make_entry_zero] at happ
        rw [entrySlots_of_count_zero hname] at happ
        dsimp only
        rw [make_entry_zero]
        omega

theorem plusN_delta (st : ChatState) (disp : Entry) (uname : Option Entry) (n : Nat)
    (hgood : ∀ e ∈ st.users, GoodEntry e) (hn : 1 ≤ n) :
    (plusNAccepted (plus_n st disp uname n).2 = true →
      ((_total_count (plus_n st disp uname n).1.users : Int) =
        (_total_count st.users : Int) + addedSlots st disp uname (.addGuests n))) ∧
      (plusNAccepted (plus_n st disp uname n).2 = false →
        (plus_n st disp uname n).1.users = st.users) := by
  by_cases hopen : st.openFlag = false
  · have hres : plus_n st disp uname n = (st, .closed) := by simp [plus_n, hopen]
    rw [hres]
    exact ⟨fun h => absurd h (by simp [plusNAccepted]), fun _ => rfl⟩
  · cases hf : findUserIdx st.users disp uname with
    | none =>
      by_cases hmax : n > MAX_GUESTS_PER_HOST
      · have hres : plus_n st disp uname n = (st, .maxGuests) := by
          simp only [plus_n, if_neg hopen, hf]
          rw [if_pos hmax]
        rw [hres]
        exact ⟨fun h => absurd h (by simp [plusNAccepted]), fun _ => rfl⟩
      · by_cases hlim : st.limit ≠ 0 ∧ _total_count st.users + (1 + n) > st.limit
        · have hres : plus_n st disp uname n = (st, .limitFull) := by
            simp only [plus_n, if_neg hopen, hf]
            rw [if_neg hmax, if_pos hlim]
          rw [hres]
          exact ⟨fun h => absurd h (by simp [plusNAccepted]), fun _ => rfl⟩
        · have hres : plus_n st disp uname n =
              ({ st with users := st.users ++ [_make_entry disp n false] }, .joinedWith) := by
            simp only [plus_n, if_neg hopen, hf]
            rw [if_neg hmax, if_neg hlim]
          rw [hres]
          refine ⟨?_, fun h => absurd h (by simp [plusNAccepted])⟩
          intro _
          have happ := total_append_singleton st.users (_make_entry disp n false)
          rw [entrySlots_make_entry_host _ hn] at happ
          have hslots : addedSlots st disp uname (.addGuests n) = 1 + n := by
            simp only [addedSlots, hf]
          rw [hslots]
          dsimp only
          omega
    | some i =>
      have hi : i < st.users.length := findUserIdx_lt hf
      have hge : GoodEntry (st.users.getD i []) := hgood _ (getD_mem_of_lt _ i hi)
      by_cases hmax : _guest_count (st.users.getD i []) + n > MAX_GUESTS_PER_HOST
      · have hres : plus_n st disp uname n = (st, .tooMany) := by
          simp only [plus_n, if_neg hopen, hf]
          rw [if_pos hmax]
        rw [hres]
        exact ⟨fun h => absurd h (by simp [plusNAccepted]), fun _ => rfl⟩
      · by_cases hlim : st.limit ≠ 0 ∧
            _total_count st.users +
              (n + (if _is_guest_only (st.users.getD i []) then 1 else 0)) > st.limit
        · have hres : plus_n st disp uname n = (st, .limitFull) := by
            simp only [plus_n, if_neg hopen, hf]
            rw [if_neg hmax, if_pos hlim]
          rw [hres]
          exact ⟨fun h => absurd h (by simp [plusNAccepted]), fun _ => rfl⟩
        · have hres : plus_n st disp uname n =
              ({ st with users := (st.users.set i
                  (_make_entry (_strip_guest (st.users.getD i []))
                    (_guest_count (st.users.getD i []) + n) false)) }, .added) := by
            simp only [plus_n, if_neg hopen, hf]
            rw [if_neg hmax, if_neg hlim]
          rw [hres]
          refine ⟨?_, fun h => absurd h (by simp [plusNAccepted])⟩
          intro _
          have hset := total_set st.users i
            (_make_entry (_strip_guest (st.users.getD i []))
              (_guest_count (st.users.getD i []) + n) false) hi
          rw [entrySlots_make_entry_host _ (by omega : 1 ≤ _guest_count (st.users.getD i []) + n)]
            at hset
          dsimp only
          by_cases hg : _is_guest_only (st.users.getD i []) = true
          · have hm : 1 ≤ _guest_count (st.users.getD i []) := hge.2 hg
            rw [entrySlots_guest_only hg hm] at hset
            have hslots : addedSlots st disp uname (.addGuests n) = n + 1 := by
              simp only [addedSlots, hf]
              rw [if_pos hg]
            rw [hslots]
            omega
          · have hgf : _is_guest_only (st.users.getD i []) = false := by
              cases hgo : _is_guest_only (st.users.getD i []) with
              | true => exact absurd hgo hg
              | false => rfl
            have hslots : addedSlots st disp uname (.addGuests n) = n + 0 := by
              simp only [addedSlots, hf]
              rw [if_neg hg]
            rw [hslots]
            by_cases hc0 : _guest_count (st.users.getD i []) = 0
            · rw [entrySlots_of_count_zero hc0] at hset
              omega
            · rw [entrySlots_host hgf (by omega)] at hset
              omega

theorem leave_delta (st : ChatState) (disp : Entry) (uname : Option Entry) :
    (minusAccepted (minus_message st disp uname).2 = true →
      ((_total_count (minus_message st disp uname).1.users : Int) =
        (_total_count st.users : Int) + addedSlots st disp uname .leave)) ∧
      (minusAccepted (minus_message st disp uname).2 = false →
        (minus_message st disp uname).1.users = st.users) := by
  cases hf : findUserIdx st.users disp uname with
  | none =>
    have hres : minus_message st disp uname = (st, .notFound) := by simp [minus_message, hf]
    rw [hres]
    exact ⟨fun h => absurd h (by simp [minusAccepted]), fun _ => rfl⟩
  | some i =>
    have hi : i < st.users.length := findUserIdx_lt hf
    by_cases hcond : _guest_count (st.users.getD i []) > 0 ∧
        _is_guest_only (st.users.getD i []) = false
    · have hres : minus_message st disp uname =
          ({ st with users := (st.users.set i
              (_make_entry (_strip_guest (st.users.getD i []))
                (_guest_count (st.users.getD i [])) true)) }, .hostRemoved) := by
        simp only [minus_message, hf]
        rw [if_pos hcond]
      rw [hres]
      refine ⟨?_, fun h => absurd h (by simp [minusAccepted])⟩
      intro _
      have hm : 1 ≤ _guest_count (st.users.getD i []) := hcond.1
      have hset := total_set st.users i
        (_make_entry (_strip_guest (st.users.getD i []))
          (_guest_count (st.users.getD i [])) true) hi
      rw [entrySlots_make_entry_guest _ hm, entrySlots_host hcond.2 hm] at hset
      dsimp only
      simp only [addedSlots]
      omega
    · by_cases hg : _is_guest_only (st.users.getD i []) = true
      · have hres : minus_message st disp uname = (st, .guestsOnlyAlready) := by
          simp only [minus_message, hf]
          rw [if_neg hcond, if_pos hg]
        rw [hres]
        exact ⟨fun h => absurd h (by simp [minusAccepted]), fun _ => rfl⟩
      · have hc0 : _guest_count (st.users.getD i []) = 0 := by
          by_cases hc : _guest_count (st.users.getD i []) = 0
          · exact hc
          · exact absurd ⟨by omega, by
              cases hgo : _is_guest_only (st.users.getD i []) with
              | true => exact absurd hgo hg
              | false => rfl⟩ hcond
        have hres : minus_message st disp uname =
            ({ st with users := st.users.eraseIdx i }, .removed) := by
          simp only [minus_message, hf]
          rw [if_neg hcond, if_neg hg]
        rw [hres]
        refine ⟨?_, fun h => absurd h (by simp [minusAccepted])⟩
        intro _
        have herase := total_eraseIdx st.users i hi
        rw [entrySlots_of_count_zero hc0] at herase
        dsimp only
        simp only [addedSlots]
        omega

theorem removeN_delta (st : ChatState) (disp : Entry) (uname : Option Entry) (n : Nat)
    (hgood : ∀ e ∈ st.users, GoodEntry e) :
    (minusNAccepted (minus_n st disp uname n).2 = true →
      ((_total_count (minus_n st disp uname n).1.users : Int) =
        (_total_count st.users : Int) + addedSlots st disp uname (.removeGuests n))) ∧
      (minusNAccepted (minus_n st disp uname n).2 = false →
        (minus_n st disp uname n).1.users = st.users) := by
  cases hf : findUserIdx st.users disp uname with
  | none =>
    have hres : minus_n st disp uname n = (st, .notFound) := by simp [minus_n, hf]
    rw [hres]
    exact ⟨fun h => absurd h (by simp [minusNAccepted]), fun _ => rfl⟩
  | some i =>
    have hi : i < st.users.length := findUserIdx_lt hf
    have hge : GoodEntry (st.users.getD i []) := hgood _ (getD_mem_of_lt _ i hi)
    by_cases h0 : _guest_count (st.users.getD i []) = 0
    · have hres : minus_n st disp uname n = (st, .noGuests) := by
        simp only [minus_n, hf]
        rw [if_pos h0]
      rw [hres]
      exact ⟨fun h => absurd h (by simp [minusNAccepted]), fun _ => rfl⟩
    · by_cases hgen : n ≥ _guest_count (st.users.getD i [])
      · have hslots : addedSlots st disp uname (.removeGuests n) =
            -(_guest_count (st.users.getD i []) : Int) := by
          simp only [addedSlots, hf]
          rw [if_pos hgen]
        by_cases hg : _is_guest_only (st.users.getD i []) = true
        · have hres : minus_n st disp uname n =
              ({ st with users := st.users.eraseIdx i }, .clearedAll) := by
            simp only [minus_n, hf]
            rw [if_neg h0, if_pos hgen, if_pos hg]
          rw [hres, hslots]
          refine ⟨?_, fun h => absurd h (by simp [minusNAccepted])⟩
          intro _
          have herase := total_eraseIdx st.users i hi
          rw [entrySlots_guest_only hg (by omega)] at herase
          dsimp only
          omega
        · have hres : minus_n st disp uname n =
              ({ st with users := (st.users.set i (_strip_guest (st.users.getD i []))) },
                .clearedAll) := by
            simp only [minus_n, hf]
            rw [if_neg h0, if_pos hgen, if_neg hg]
          rw [hres, hslots]
          refine ⟨?_, fun h => absurd h (by simp [minusNAccepted])⟩
          intro _
          have hgf : _is_guest_only (st.users.getD i []) = false := by
            cases hgo : _is_guest_only (st.users.getD i []) with
            | true => exact absurd hgo hg
            | false => rfl
          have hset := total_set st.users i (_strip_guest (st.users.getD i [])) hi
          rw [entrySlots_of_count_zero hge.1, entrySlots_host hgf (by omega)] at hset
          dsimp only
          omega
      · have hlt : n < _guest_count (st.users.getD i []) := by omega
        have hslots : addedSlots st disp uname (.removeGuests n) = -(n : Int) := by
          simp only [addedSlots, hf]
          rw [if_neg hgen]
        have hres : minus_n st disp uname n =
            ({ st with users := (st.users.set i
                (_make_entry (_strip_guest (st.users.getD i []))
                  (_guest_count (st.users.getD i []) - n)
                  (_is_guest_only (st.users.getD i [])))) }, .decreased) := by
          simp only [minus_n, hf]
          rw [if_neg h0, if_neg hgen]
        rw [hres, hslots]
        refine ⟨?_, fun h => absurd h (by simp [minusNAccepted])⟩
        intro _
        have hset := total_set st.users i
          (_make_entry (_strip_guest (st.users.getD i []))
            (_guest_count (st.users.getD i []) - n)
            (_is_guest_only (st.users.getD i []))) hi
        dsimp only
        by_cases hg : _is_guest_only (st.users.getD i []) = true
        · rw [hg]
          rw [hg] at hset
          rw [entrySlots_make_entry_guest _
              (by omega : 1 ≤ _guest_count (st.users.getD i []) - n),
            entrySlots_guest_only hg (by omega)] at hset
          omega
        · have hgf : _is_guest_only (st.users.getD i []) = false := by
            cases hgo : _is_guest_only (st.users.getD i []) with
            | true => exact absurd hgo hg
            | false => rfl
          rw [hgf]
          rw [hgf] at hset
          rw [entrySlots_make_entry_host _
              (by omega : 1 ≤ _guest_count (st.users.getD i []) - n),
            entrySlots_host hgf (by omega)] at hset
          omega

instance (e : Entry) : Decidable (GoodEntry e) := by unfold GoodEntry; infer_instance

instance (d : Entry) : Decidable (GoodName d) := by unfold GoodName; infer_instance

instance : (op : Op) → Decidable (OpValid op)
  | .join => isTrue trivial
  | .addGuests n => inferInstanceAs (Decidable (1 ≤ n ∧ n ≤ 5))
  | .leave => isTrue trivial
  | .removeGuests n => inferInstanceAs (Decidable (1 ≤ n ∧ n ≤ 5))

/--
C2 counterexample: a `join` by a caller whose display name is `"A +2"` is
accepted on an empty open roster (addedSlots for join is 1), but stores
the entry `"A +2"`, which occupies 3 slots: `totalOccupied` goes from 0 to
3, not from 0 to 1 — the claimed accounting identity fails on the code as
stated, for every-roster-state/every-identity quantification.
-/
theorem C2_counterexample :
    (step ⟨true, [], [], [], 0, []⟩ ("A +2".data) none .join).2 = true ∧
      _total_count (step ⟨true, [], [], [], 0, []⟩ ("A +2".data) none .join).1.users = 3 ∧
      addedSlots ⟨true, [], [], [], 0, []⟩ ("A +2".data) none .join = 1 ∧
      _total_count ([] : List Entry) = 0 := by
  decide

/--
C2 (amended): for every roster state whose entries are well-formed (the
stripped base of an entry carries no residual guest suffix, and guest-only
entries have a positive guest count), and every caller whose stripped
display name carries no guest suffix: an accepted mutation (join,
addGuests, removeGuests, leave, with 1–5 guest arguments) changes
`_total_count` by exactly the `addedSlots` computed for that transition
(join: 1; addGuests absent: 1+n; addGuests present: n, plus 1 if the
entry was guest-only; leave: −1; removeGuests: −min(n, guestCount)), and a
rejected mutation leaves the entries list unchanged.
-/
theorem C2_capacity (st : ChatState) (disp : Entry) (uname : Option Entry) (op : Op)
    (hgood : ∀ e ∈ st.users, GoodEntry e) (hname : GoodName disp) (hv : OpValid op) :
    ((step st disp uname op).2 = true →
      ((_total_count (step st disp uname op).1.users : Int) =
        (_total_count st.users : Int) + addedSlots st disp uname op)) ∧
      ((step st disp uname op).2 = false →
        (step st disp uname op).1.users = st.users) := by
  cases op with
  | join => exact join_delta st disp uname hgood hname
  | addGuests n => exact plusN_delta st disp uname n hgood hv.1
  | leave => exact leave_delta st disp uname
  | removeGuests n => exact removeN_delta st disp uname n hgood

/-- C2 witness: `addGuests 1` by the absent caller `Ann` on the roster
`["Bob +2"]` — accepted, and the total rises by the computed 1+1 = 2. -/
theorem C2_capacity_witness :
    (∀ e ∈ (["Bob +2".data] : List Entry), GoodEntry e) ∧
      GoodName ("Ann".data) ∧ OpValid (.addGuests 1) ∧
      ((step ⟨true, [], [], [], 0, ["Bob +2".data]⟩ ("Ann".data) none (.addGuests 1)).2 =
          true →
        ((_total_count (step ⟨true, [], [], [], 0, ["Bob +2".data]⟩ ("Ann".data) none
            (.addGuests 1)).1.users : Int) =
          (_total_count (["Bob +2".data] : List Entry) : Int) +
            addedSlots ⟨true, [], [], [], 0, ["Bob +2".data]⟩ ("Ann".data) none
              (.addGuests 1))) :=
  ⟨by decide, by decide, by decide,
    (C2_capacity ⟨true, [], [], [], 0, ["Bob +2".data]⟩ ("Ann".data) none (.addGuests 1)
      (by decide) (by decide) (by decide)).1⟩

end Footbot
